import Mathlib

/-!
Verification of the syllabus-to-calendar-events extraction pipeline of this
repository (`src/utils/llm.ts` together with the upload workflow and the
persistence mapping in `src/components/Navbar.tsx`).

The TypeScript source is shallowly embedded: strings are `String`, JavaScript
numbers carrying confidence scores are `Rat`, nullable/optional values are
`Option`, thrown exceptions are `Except`, and the outcome of the one network
effect (the Gemini fetch) is an explicit environment value.  JavaScript
regular-expression matching (used by the fallback extractor) is embedded by a
small backtracking engine whose abstract syntax transliterates the three
`DATE_PATTERNS` of the source; list order models backtracking priority.
-/

/-! ## JavaScript primitives used by the source -/

/-- The whitespace characters recognised by the JavaScript `\s` class and
`String.prototype.trim`, restricted to the ASCII range plus NBSP (the inputs
of this pipeline are ASCII). -/
def jsWhitespace (c : Char) : Bool :=
  c = ' ' || c = '\t' || c = '\n' || c = '\r' ||
  c.val = 11 || c.val = 12 || c.val = 0xa0

/-- Models `String.prototype.toLowerCase` on the ASCII strings this pipeline
handles. -/
def jsToLower (s : String) : String :=
  ⟨s.data.map Char.toLower⟩

/-- Models `String.prototype.trim`: strip leading and trailing whitespace. -/
def jsTrim (s : String) : String :=
  ⟨((s.data.dropWhile jsWhitespace).reverse.dropWhile jsWhitespace).reverse⟩

/-- JavaScript `parseInt` applied to a possibly-undefined string, as the
source does on regex capture groups: `none` models `NaN` (in particular
`parseInt(undefined)` is `NaN`).  The digit-prefix rule of `parseInt` is kept:
a string with no leading digits parses to `NaN`. -/
def parseIntJS : Option String → Option Nat
  | none => none
  | some s =>
    let ds := s.data.takeWhile Char.isDigit
    if ds = [] then none
    else some (ds.foldl (fun n c => 10 * n + (c.toNat - '0'.toNat)) 0)

/-- Models `Number.prototype.toString` on the result of `parseInt`: `NaN` prints as
`"NaN"`. -/
def numToStr : Option Nat → String
  | none => "NaN"
  | some n => toString n

/-- Models `String.prototype.padStart(2, "0")`. -/
def padStart2 (s : String) : String :=
  if s.length ≥ 2 then s else ⟨List.replicate (2 - s.length) '0' ++ s.data⟩

/-- Gregorian leap-year rule (as used by the ECMAScript date arithmetic). -/
def isLeapYear (y : Nat) : Bool :=
  (y % 4 = 0 && y % 100 ≠ 0) || y % 400 = 0

/-- Number of days of month `m` (1-based) in year `y`. -/
def daysInMonth (y m : Nat) : Nat :=
  if m = 2 then (if isLeapYear y then 29 else 28)
  else if m = 4 || m = 6 || m = 9 || m = 11 then 30
  else 31

/-- Decimal value of a digit character (code 48 is `'0'`). -/
def digitVal (c : Char) : Nat := c.toNat - 48

/-- Models `!isNaN(new Date(s).getTime())`, the validity check the source
applies to its candidate date strings.  Every date string this pipeline
constructs is hyphen-separated (`<year>-<MM>-<DD>`), and for such strings the
ECMAScript Date Time String Format accepts exactly a four-digit year, a
two-digit month in 1..12 and a two-digit day within the month; anything else
(including the `"NaN-..."` strings produced from absent capture groups) is an
invalid date. -/
def jsDateValid (s : String) : Bool :=
  match s.data with
  | [y1, y2, y3, y4, h1, m1, m2, h2, d1, d2] =>
    y1.isDigit && y2.isDigit && y3.isDigit && y4.isDigit &&
    h1 = '-' && h2 = '-' &&
    m1.isDigit && m2.isDigit && d1.isDigit && d2.isDigit &&
    (let y := ((digitVal y1 * 10 + digitVal y2) * 10 + digitVal y3) * 10 + digitVal y4
     let mo := digitVal m1 * 10 + digitVal m2
     let d := digitVal d1 * 10 + digitVal d2
     1 ≤ mo && mo ≤ 12 && 1 ≤ d && d ≤ daysInMonth y mo)
  | _ => false

/-- Validity of `new Date(x)` when `x` may be `undefined` (`new Date(undefined)`
is an invalid date). -/
def jsDateValidOpt : Option String → Bool
  | none => false
  | some s => jsDateValid s

/-- JavaScript truthiness of an optional string (`undefined`, `null` and the
empty string are falsy). -/
def jsFalsyStr : Option String → Bool
  | none => true
  | some s => s = ""

/-! ## The `ExtractedEvent` interface (`src/types/database.ts`, as used by
`src/utils/llm.ts`)

`eventType` is one of the `EventType` union strings; `dueDate` is optional at
this stage (the Gemini coercion passes a missing `dueDate` through), and
`dueTime`/`description` are nullable. -/

structure ExtractedEvent where
  title : String
  description : Option String
  eventType : String
  dueDate : Option String
  dueTime : Option String
  confidenceScore : Rat
  sourceText : String
deriving DecidableEq, Repr

/-! ## `validateExtractedEvents` (`src/utils/llm.ts`, lines 333-357) -/

/-- The allow-list `validTypes` of the validator. -/
def validTypes : List String := ["assignment", "exam", "quiz", "project", "deadline"]

/-- The filter body of `validateExtractedEvents`, transliterated clause by
clause: `!event.title || !event.dueDate || !event.eventType` rejects, an
invalid `new Date(event.dueDate)` rejects, a confidence score outside `[0,1]`
rejects, and finally the event type must be in `validTypes`. -/
def validateEventCheck (event : ExtractedEvent) : Bool :=
  if event.title = "" || jsFalsyStr event.dueDate || event.eventType = "" then false
  else if ! jsDateValidOpt event.dueDate then false
  else if event.confidenceScore < 0 || event.confidenceScore > 1 then false
  else validTypes.contains event.eventType

/-- The filter `validateExtractedEvents(events)`: keep the events passing the check. -/
def validateExtractedEvents (events : List ExtractedEvent) : List ExtractedEvent :=
  events.filter validateEventCheck

/-- The validation predicate as the specification words it: non-empty title, a
present due date that parses as a valid calendar date, an event type in the
allow-list, and a confidence score inside `[0,1]`. -/
def validEventSpec (e : ExtractedEvent) : Bool :=
  e.title ≠ "" &&
  (match e.dueDate with
   | some d => jsDateValid d
   | none => false) &&
  validTypes.contains e.eventType &&
  (0 ≤ e.confidenceScore && e.confidenceScore ≤ 1)

/-! ## `deduplicateEvents` (`src/utils/llm.ts`, lines 359-369) -/

/-- A possibly-undefined string interpolated into a template literal
(`${event.dueDate}` prints `undefined` as `"undefined"`). -/
def jsTemplateStr : Option String → String
  | none => "undefined"
  | some s => s

/-- The deduplication key `` `${event.title.toLowerCase()}-${event.dueDate}` ``. -/
def dedupKey (event : ExtractedEvent) : String :=
  jsToLower event.title ++ "-" ++ jsTemplateStr event.dueDate

/-- The filter of `deduplicateEvents`, with the mutable `seen : Set<string>`
made explicit. -/
def dedupGo (seen : List String) : List ExtractedEvent → List ExtractedEvent
  | [] => []
  | e :: es =>
    if seen.contains (dedupKey e) then dedupGo seen es
    else e :: dedupGo (dedupKey e :: seen) es

/-- The function `deduplicateEvents(events)`. -/
def deduplicateEvents (events : List ExtractedEvent) : List ExtractedEvent :=
  dedupGo [] events

/-- The deduplication contract as the specification words it: the first
occurrence of each key is kept in input order, and every later event with an
identical key is dropped. -/
def firstOccurrenceFilter : List ExtractedEvent → List ExtractedEvent
  | [] => []
  | e :: es =>
    e :: firstOccurrenceFilter (es.filter (fun x => dedupKey x ≠ dedupKey e))
termination_by l => l.length
decreasing_by
  simp only [List.length_cons]
  exact Nat.lt_succ_of_le (List.length_filter_le _ _)

/-! ## A backtracking engine for the `DATE_PATTERNS` regular expressions
(`src/utils/llm.ts`, lines 150-156)

The three source patterns use only: case-insensitive literal alternations,
single-character classes under greedy `+`, lazy `+?`, bounded `{m,n}` and
optional `?` quantifiers, concatenation, and numbered capture groups.  The
engine enumerates the parses of a pattern at a position as a list ordered by
the backtracking priority of a JavaScript regex (`alt` tries the left branch
first, greedy quantifiers try longer repetitions first, lazy ones shorter
first); the head of the list is the match the JavaScript engine reports. -/

/-- The character classes appearing in the `DATE_PATTERNS`. -/
inductive CharCls where
  | digit
  | ws
  | wsColon
  | wsColonDash
  | notColon
  | notDash
  | chr (c : Char)
deriving DecidableEq, Repr

/-- Membership in a character class (`\d`, `\s`, `[\s:]`, `[\s:-]`, `[^:]`,
`[^-]`, a literal character). -/
def CharCls.mem : CharCls → Char → Bool
  | .digit, c => c.isDigit
  | .ws, c => jsWhitespace c
  | .wsColon, c => jsWhitespace c || c = ':'
  | .wsColonDash, c => jsWhitespace c || c = ':' || c = '-'
  | .notColon, c => c ≠ ':'
  | .notDash, c => c ≠ '-'
  | .chr x, c => c = x

/-- Regular expressions in the fragment used by the `DATE_PATTERNS`. -/
inductive RE where
  | lit (s : List Char)
  | plusG (c : CharCls)
  | plusL (c : CharCls)
  | repG (c : CharCls) (lo hi : Nat)
  | optG (c : CharCls)
  | cat (a b : RE)
  | alt (a b : RE)
  | grp (i : Nat) (r : RE)
deriving DecidableEq, Repr

/-- Length of the maximal prefix of `cs` inside class `c`. -/
def classRun (c : CharCls) (cs : List Char) : Nat :=
  (cs.takeWhile c.mem).length

/-- Capture environment: group index paired with the captured characters. -/
abbrev Caps := List (Nat × List Char)

/-- All parses of `r` at the head of `cs`, as pairs of the remaining suffix
and the captures recorded, in backtracking-priority order.  Literals compare
case-insensitively (the source patterns all carry the `i` flag). -/
def reMatches : RE → List Char → List (List Char × Caps)
  | .lit s, cs =>
    if (cs.take s.length).map Char.toLower = s then [(cs.drop s.length, [])] else []
  | .plusG c, cs =>
    let r := classRun c cs
    (List.range r).map (fun k => (cs.drop (r - k), []))
  | .plusL c, cs =>
    let r := classRun c cs
    (List.range r).map (fun k => (cs.drop (k + 1), []))
  | .repG c lo hi, cs =>
    let r := min (classRun c cs) hi
    if r < lo then []
    else (List.range (r - lo + 1)).map (fun k => (cs.drop (r - k), []))
  | .optG c, cs =>
    if classRun c cs ≥ 1 then [(cs.drop 1, []), (cs, [])] else [(cs, [])]
  | .cat a b, cs =>
    (reMatches a cs).flatMap fun p =>
      (reMatches b p.1).map fun q => (q.1, p.2 ++ q.2)
  | .alt a b, cs => reMatches a cs ++ reMatches b cs
  | .grp i r, cs =>
    (reMatches r cs).map fun p =>
      (p.1, (i, cs.take (cs.length - p.1.length)) :: p.2)

/-- A reported match: the matched text (`match[0]`) and the captures. -/
structure RMatch where
  full : List Char
  caps : Caps
deriving DecidableEq, Repr

/-- Indexing `match[i]` for `i ≥ 1`: the capture of group `i`, `none` when the group
is absent from the pattern or did not participate. -/
def RMatch.group (m : RMatch) (i : Nat) : Option (List Char) :=
  (m.caps.find? (fun p => p.1 = i)).map (fun p => p.2)

/-- Leftmost match search: try the pattern at each successive start position
and report the first success together with its offset. -/
def reFindHere (r : RE) (cs : List Char) : Option RMatch :=
  (reMatches r cs).head?.map (fun p => ⟨cs.take (cs.length - p.1.length), p.2⟩)

/-- Scan tail-by-tail for the leftmost position with a match. -/
def reFind (r : RE) : List Char → Option (Nat × RMatch)
  | [] => (reFindHere r []).map (fun m => (0, m))
  | c :: tl =>
    match reFindHere r (c :: tl) with
    | some m => some (0, m)
    | none => (reFind r tl).map (fun q => (q.1 + 1, q.2))

/-- The repeated-`exec` loop behind `String.prototype.matchAll` on a `/g`
pattern: after a match the scan resumes past its end (advancing at least one
character).  The fuel is the remaining input length plus one, which is enough
because every match of the source patterns is non-empty. -/
def reMatchAllGo (r : RE) : Nat → List Char → List RMatch
  | 0, _ => []
  | fuel + 1, cs =>
    match reFind r cs with
    | none => []
    | some (i, m) => m :: reMatchAllGo r fuel (cs.drop (i + max m.full.length 1))

/-- Models `text.matchAll(pattern)` as a list of matches. -/
def reMatchAll (r : RE) (cs : List Char) : List RMatch :=
  reMatchAllGo r (cs.length + 1) cs

/-- Chained alternation `(x1|x2|...|xn)`, associated to the right as the
JavaScript parser does. -/
def altList : List RE → RE
  | [] => RE.lit []
  | [r] => r
  | r :: rs => RE.alt r (altList rs)

/-- The keyword alternation of the first two patterns:
`(assignment|exam|quiz|project|deadline|due)`. -/
def keywordRE12 : RE :=
  altList [RE.lit "assignment".data, RE.lit "exam".data, RE.lit "quiz".data,
           RE.lit "project".data, RE.lit "deadline".data, RE.lit "due".data]

/-- The keyword alternation of the third pattern:
`(final\s+exam|midterm|assignment|project)`. -/
def keywordRE3 : RE :=
  altList [RE.cat (RE.lit "final".data) (RE.cat (RE.plusG .ws) (RE.lit "exam".data)),
           RE.lit "midterm".data, RE.lit "assignment".data, RE.lit "project".data]

/-- The full month-name alternation of the first pattern. -/
def monthFullRE : RE :=
  altList [RE.lit "january".data, RE.lit "february".data, RE.lit "march".data,
           RE.lit "april".data, RE.lit "may".data, RE.lit "june".data,
           RE.lit "july".data, RE.lit "august".data, RE.lit "september".data,
           RE.lit "october".data, RE.lit "november".data, RE.lit "december".data]

/-- The abbreviated month names of the third pattern, in source order. -/
def monthAbbrs : List (List Char) :=
  ["jan".data, "feb".data, "mar".data, "apr".data, "may".data, "jun".data,
   "jul".data, "aug".data, "sep".data, "oct".data, "nov".data, "dec".data]

/-- The abbreviated-month alternation of the third pattern. -/
def monthAbbrRE : RE := altList (monthAbbrs.map RE.lit)

/-- Pattern 1:
`/(assignment|exam|quiz|project|deadline|due)[\s:]+([^:]+?)[\s:]+(january|...|december)\s+(\d{1,2}),?\s+(\d{4})/gi`. -/
def pattern1 : RE :=
  RE.cat (RE.grp 1 keywordRE12)
    (RE.cat (RE.plusG .wsColon)
      (RE.cat (RE.grp 2 (RE.plusL .notColon))
        (RE.cat (RE.plusG .wsColon)
          (RE.cat (RE.grp 3 monthFullRE)
            (RE.cat (RE.plusG .ws)
              (RE.cat (RE.grp 4 (RE.repG .digit 1 2))
                (RE.cat (RE.optG (.chr ','))
                  (RE.cat (RE.plusG .ws) (RE.grp 5 (RE.repG .digit 4 4))))))))))

/-- Pattern 2:
`/(assignment|exam|quiz|project|deadline|due)[\s:]+([^:]+?)[\s:]+(\d{1,2})\/(\d{1,2})\/(\d{4})/gi`. -/
def pattern2 : RE :=
  RE.cat (RE.grp 1 keywordRE12)
    (RE.cat (RE.plusG .wsColon)
      (RE.cat (RE.grp 2 (RE.plusL .notColon))
        (RE.cat (RE.plusG .wsColon)
          (RE.cat (RE.grp 3 (RE.repG .digit 1 2))
            (RE.cat (RE.lit ['/'])
              (RE.cat (RE.grp 4 (RE.repG .digit 1 2))
                (RE.cat (RE.lit ['/']) (RE.grp 5 (RE.repG .digit 4 4)))))))))

/-- Pattern 3:
`/(final\s+exam|midterm|assignment|project)[\s:-]+([^-]+?)[\s:-]+(jan|...|dec)\s+(\d{1,2})/gi`
— note it has only four capture groups and no year. -/
def pattern3 : RE :=
  RE.cat (RE.grp 1 keywordRE3)
    (RE.cat (RE.plusG .wsColonDash)
      (RE.cat (RE.grp 2 (RE.plusL .notDash))
        (RE.cat (RE.plusG .wsColonDash)
          (RE.cat (RE.grp 3 monthAbbrRE)
            (RE.cat (RE.plusG .ws) (RE.grp 4 (RE.repG .digit 1 2)))))))

/-- The list `DATE_PATTERNS` in source order. -/
def DATE_PATTERNS : List RE := [pattern1, pattern2, pattern3]

/-! ## `MONTH_MAP`, `determineEventType` and `parseRegexMatch`
(`src/utils/llm.ts`, lines 158-182, 221-292) -/

/-- The table `MONTH_MAP` as an association list in source order. -/
def MONTH_MAP : List (String × Nat) :=
  [("january", 1), ("jan", 1), ("february", 2), ("feb", 2), ("march", 3),
   ("mar", 3), ("april", 4), ("apr", 4), ("may", 5), ("june", 6), ("jun", 6),
   ("july", 7), ("jul", 7), ("august", 8), ("aug", 8), ("september", 9),
   ("sep", 9), ("october", 10), ("oct", 10), ("november", 11), ("nov", 11),
   ("december", 12), ("dec", 12)]

/-- Lookup `MONTH_MAP[key]` (an object lookup; the keys of `MONTH_MAP` are unique). -/
def monthMapLookup (key : String) : Option Nat :=
  (MONTH_MAP.find? (fun p => p.1 = key)).map (fun p => p.2)

/-- Does `sub` occur as a contiguous subsequence of the list? -/
def occursWithin (sub : List Char) : List Char → Bool
  | [] => sub.isPrefixOf []
  | c :: cs => sub.isPrefixOf (c :: cs) || occursWithin sub cs

/-- Models `text.includes(sub)`. -/
def jsIncludes (s sub : String) : Bool :=
  occursWithin sub.data s.data

/-- The classifier `determineEventType` with its keyword precedence: exam/final/midterm,
then quiz, then project, then assignment, else deadline. -/
def determineEventType (text : String) : String :=
  let lowerText := jsToLower text
  if jsIncludes lowerText "exam" || jsIncludes lowerText "final" ||
     jsIncludes lowerText "midterm" then "exam"
  else if jsIncludes lowerText "quiz" then "quiz"
  else if jsIncludes lowerText "project" then "project"
  else if jsIncludes lowerText "assignment" then "assignment"
  else "deadline"

/-- JavaScript truthiness of an optional capture (`match[i] &&`): absent or
empty captures are falsy. -/
def jsTruthyCap : Option (List Char) → Bool
  | none => false
  | some s => s ≠ []

/-- Lookup of `MONTH_MAP[match[3].toLowerCase()]` guarded by `match[3] &&`. -/
def monthOfGroup3 (m : RMatch) : Option Nat :=
  match m.group 3 with
  | none => none
  | some g3 => monthMapLookup (jsToLower ⟨g3⟩)

/-- The date string `` `${year}-${month...padStart(2,"0")}-${day...padStart(2,"0")}` ``
built by both branches of `parseRegexMatch` (`NaN` components are kept, as in
the source, and rejected by the subsequent validity check). -/
def mkDueDate (year month day : Option Nat) : String :=
  numToStr year ++ "-" ++ padStart2 (numToStr month) ++ "-" ++ padStart2 (numToStr day)

/-- The parser `parseRegexMatch(match, sourceText)`: derive the event type from group 1,
the title from group 2, and the date either from a month-name group 3
(`MONTH_MAP` branch) or from numeric groups 3/4/5; discard the match when the
assembled date string is not a valid date.  The source's internal `try/catch`
is dead (no statement in the body throws), so the embedding is total. -/
def parseRegexMatch (m : RMatch) : Option ExtractedEvent :=
  let eventType := determineEventType (jsToLower ⟨(m.group 1).getD []⟩)
  let title :=
    match m.group 2 with
    | some g2 => (if jsTrim ⟨g2⟩ = "" then "Unknown Event" else jsTrim ⟨g2⟩)
    | none => "Unknown Event"
  let confidenceScore : Rat := mkRat 7 10
  let dueDate? : Option String :=
    if jsTruthyCap (m.group 3) && (monthOfGroup3 m).isSome then
      mkDueDate (parseIntJS ((m.group 5).map (⟨·⟩)))
        (monthOfGroup3 m)
        (parseIntJS ((m.group 4).map (⟨·⟩)))
    else if jsTruthyCap (m.group 3) && jsTruthyCap (m.group 4) &&
            jsTruthyCap (m.group 5) then
      mkDueDate (parseIntJS ((m.group 5).map (⟨·⟩)))
        (parseIntJS ((m.group 3).map (⟨·⟩)))
        (parseIntJS ((m.group 4).map (⟨·⟩)))
    else none
  match dueDate? with
  | none => none
  | some dueDate =>
    if jsDateValid dueDate then
      some { title := if title.length > 0 then title else eventType ++ " due"
             description := some "Extracted from syllabus text"
             eventType := eventType
             dueDate := some dueDate
             dueTime := none
             confidenceScore := confidenceScore
             sourceText := ⟨m.full⟩ }
    else none

/-- The fallback `extractEventsWithRegex(text)`: run every pattern over the text with
`matchAll`, parse each match, and collect the successes in order
(`DATE_PATTERNS.forEach` with an accumulating `events` array). -/
def extractEventsWithRegex (text : String) : List ExtractedEvent :=
  DATE_PATTERNS.flatMap fun pattern =>
    (reMatchAll pattern text.data).filterMap parseRegexMatch

/-! ## JSON values and `JSON.parse` (used by `callGeminiAPI` on the model's
response text) -/

/-- JSON values. -/
inductive Json where
  | null
  | bool (b : Bool)
  | num (q : Rat)
  | str (s : String)
  | arr (elems : List Json)
  | obj (fields : List (String × Json))

/-- Is the value an array (`Array.isArray`)? -/
def Json.isArr : Json → Bool
  | .arr _ => true
  | _ => false

/-- Is the value `null`? -/
def Json.isNull : Json → Bool
  | .null => true
  | _ => false

/-- The JSON whitespace characters. -/
def jsonWs (c : Char) : Bool :=
  c = ' ' || c = '\t' || c = '\n' || c = '\r'

/-- Skip JSON whitespace. -/
def skipJsonWs (cs : List Char) : List Char :=
  cs.dropWhile jsonWs

/-- Value of a hexadecimal digit, by code point: `0`-`9` are codes 48-57,
`a`-`f` are 97-102, and `A`-`F` are 65-70. -/
def hexDigit (c : Char) : Option Nat :=
  let n := c.toNat
  if 48 ≤ n && n ≤ 57 then some (n - 48)
  else if 97 ≤ n && n ≤ 102 then some (n - 87)
  else if 65 ≤ n && n ≤ 70 then some (n - 55)
  else none

/-- Body of a JSON string literal, after the opening quote: the parsed
characters so far are accumulated in reverse. -/
def parseJsonStringAux (acc : List Char) : List Char → Option (String × List Char)
  | [] => none
  | '"' :: rest => some (⟨acc.reverse⟩, rest)
  | '\\' :: '"' :: rest => parseJsonStringAux ('"' :: acc) rest
  | '\\' :: '\\' :: rest => parseJsonStringAux ('\\' :: acc) rest
  | '\\' :: '/' :: rest => parseJsonStringAux ('/' :: acc) rest
  | '\\' :: 'b' :: rest => parseJsonStringAux (Char.ofNat 8 :: acc) rest
  | '\\' :: 'f' :: rest => parseJsonStringAux (Char.ofNat 12 :: acc) rest
  | '\\' :: 'n' :: rest => parseJsonStringAux ('\n' :: acc) rest
  | '\\' :: 'r' :: rest => parseJsonStringAux ('\r' :: acc) rest
  | '\\' :: 't' :: rest => parseJsonStringAux ('\t' :: acc) rest
  | '\\' :: 'u' :: h1 :: h2 :: h3 :: h4 :: rest =>
    match hexDigit h1, hexDigit h2, hexDigit h3, hexDigit h4 with
    | some a, some b, some c, some d =>
      parseJsonStringAux (Char.ofNat (((a * 16 + b) * 16 + c) * 16 + d) :: acc) rest
    | _, _, _, _ => none
  | '\\' :: _ => none
  | c :: rest =>
    if c.toNat < 32 then none else parseJsonStringAux (c :: acc) rest

/-- A JSON number starting at `cs` (strict JSON grammar: optional minus, no
leading zeros, optional fraction and exponent), returned as a rational. -/
def parseJsonNumber (cs : List Char) : Option (Rat × List Char) :=
  let signed := cs.head? = some '-'
  let cs1 := if signed then cs.drop 1 else cs
  let intDigits := cs1.takeWhile Char.isDigit
  if intDigits = [] then none
  else if intDigits.head? = some '0' && intDigits.length > 1 then none
  else
    let cs2 := cs1.drop intDigits.length
    let intVal : Nat := intDigits.foldl (fun n c => 10 * n + digitVal c) 0
    let fracDigits := if cs2.head? = some '.' then (cs2.drop 1).takeWhile Char.isDigit else []
    if cs2.head? = some '.' && fracDigits = [] then none
    else
      let cs3 := if cs2.head? = some '.' then cs2.drop (1 + fracDigits.length) else cs2
      let fracVal : Nat := fracDigits.foldl (fun n c => 10 * n + digitVal c) 0
      let mantissa : Rat := (intVal : Rat) + (fracVal : Rat) / ((10 : Rat) ^ fracDigits.length)
      let hasExp := cs3.head? = some 'e' || cs3.head? = some 'E'
      if hasExp then
        let cs4 := cs3.drop 1
        let expNeg := cs4.head? = some '-'
        let cs5 := if cs4.head? = some '-' || cs4.head? = some '+' then cs4.drop 1 else cs4
        let expDigits := cs5.takeWhile Char.isDigit
        if expDigits = [] then none
        else
          let expVal : Nat := expDigits.foldl (fun n c => 10 * n + digitVal c) 0
          let scaled := if expNeg then mantissa / ((10 : Rat) ^ expVal)
                        else mantissa * ((10 : Rat) ^ expVal)
          some ((if signed then -scaled else scaled), cs5.drop expDigits.length)
      else
        some ((if signed then -mantissa else mantissa), cs3)

mutual

/-- Recursive-descent JSON value parser; the fuel bounds the nesting and list
recursion (any fuel of at least twice the input length is sufficient). -/
def parseJsonVal : Nat → List Char → Option (Json × List Char)
  | 0, _ => none
  | fuel + 1, cs =>
    match skipJsonWs cs with
    | [] => none
    | c :: rest =>
      if c = 'n' then
        if rest.take 3 = "ull".data then some (.null, rest.drop 3) else none
      else if c = 't' then
        if rest.take 3 = "rue".data then some (.bool true, rest.drop 3) else none
      else if c = 'f' then
        if rest.take 4 = "alse".data then some (.bool false, rest.drop 4) else none
      else if c = '"' then
        (parseJsonStringAux [] rest).map (fun p => (.str p.1, p.2))
      else if c = '[' then
        parseJsonArrElems fuel (skipJsonWs rest) true
      else if c = '{' then
        parseJsonObjFields fuel (skipJsonWs rest) true
      else if c.isDigit || c = '-' then
        (parseJsonNumber (c :: rest)).map (fun p => (.num p.1, p.2))
      else none

/-- Elements of a JSON array, after the opening bracket (`first` marks the
position before any element). -/
def parseJsonArrElems : Nat → List Char → Bool → Option (Json × List Char)
  | 0, _, _ => none
  | fuel + 1, cs, first =>
    match cs with
    | ']' :: rest => if first then some (.arr [], rest) else none
    | _ =>
      match parseJsonVal fuel cs with
      | none => none
      | some (v, rest1) =>
        match skipJsonWs rest1 with
        | ',' :: rest2 =>
          match parseJsonArrElems fuel (skipJsonWs rest2) false with
          | some (.arr vs, rest3) => some (.arr (v :: vs), rest3)
          | _ => none
        | ']' :: rest2 => some (.arr [v], rest2)
        | _ => none

/-- Members of a JSON object, after the opening brace. -/
def parseJsonObjFields : Nat → List Char → Bool → Option (Json × List Char)
  | 0, _, _ => none
  | fuel + 1, cs, first =>
    match cs with
    | '}' :: rest => if first then some (.obj [], rest) else none
    | '"' :: rest =>
      match parseJsonStringAux [] rest with
      | none => none
      | some (key, rest1) =>
        match skipJsonWs rest1 with
        | ':' :: rest2 =>
          match parseJsonVal fuel rest2 with
          | none => none
          | some (v, rest3) =>
            match skipJsonWs rest3 with
            | ',' :: rest4 =>
              match parseJsonObjFields fuel (skipJsonWs rest4) false with
              | some (.obj fs, rest5) => some (.obj ((key, v) :: fs), rest5)
              | _ => none
            | '}' :: rest4 => some (.obj [(key, v)], rest4)
            | _ => none
        | _ => none
    | _ => none

end

/-- Models `JSON.parse(s)`: parse one value and require only whitespace after it;
`none` models a thrown `SyntaxError`. -/
def jsonParse (s : String) : Option Json :=
  match parseJsonVal (2 * s.length + 4) s.data with
  | some (j, rest) => if skipJsonWs rest = [] then some j else none
  | none => none

/-! ## `callGeminiAPI` and `extractEventsWithLLM`
(`src/utils/llm.ts`, lines 68-148 and 184-198) -/

/-- The first match of `/\[[\s\S]*\]/` in `responseText`: the substring from
the first `[` that is followed by some `]` up to the last `]` (the quantifier
is greedy).  `none` models "no JSON array found". -/
def bracketMatch (s : String) : Option String :=
  match s.data.findIdx? (fun c => c = '['), s.data.reverse.findIdx? (fun c => c = ']') with
  | some i, some k =>
    let j := s.length - 1 - k
    if i < j then some ⟨(s.data.drop i).take (j - i + 1)⟩ else none
  | _, _ => none

/-- Property access `obj[key]` on a parsed JSON value: `none` models
`undefined` (absent key, or access on a primitive).  `JSON.parse` keeps the
last of duplicate keys, hence the reversed lookup. -/
def jsonGetField (j : Json) (k : String) : Option Json :=
  match j with
  | .obj fs => (fs.reverse.find? (fun p => p.1 = k)).map (fun p => p.2)
  | _ => none

/-- A field read at type `string` (the type the `ExtractedEvent` interface
declares for it); absent, `null` or non-string values read as missing. -/
def strField (j : Json) (k : String) : Option String :=
  match jsonGetField j k with
  | some (.str s) => some s
  | _ => none

/-- A field read at type `number`. -/
def numField (j : Json) (k : String) : Option Rat :=
  match jsonGetField j k with
  | some (.num q) => some q
  | _ => none

/-- The element coercion of `callGeminiAPI` (`events.map(...)`, lines
135-143): `event.title || "Unknown Event"`, `event.description || null`,
`event.eventType || "deadline"`, `event.dueDate` passed through,
`event.dueTime || null`, `event.confidenceScore || 0.5`,
`event.sourceText || ""`.  The `||` defaults fire on JavaScript-falsy values:
a missing field, an empty string, or (for the score) the number `0`. -/
def geminiCoerceEvent (event : Json) : ExtractedEvent :=
  { title :=
      match strField event "title" with
      | some s => if s = "" then "Unknown Event" else s
      | none => "Unknown Event"
    description :=
      match strField event "description" with
      | some s => if s = "" then none else some s
      | none => none
    eventType :=
      match strField event "eventType" with
      | some s => if s = "" then "deadline" else s
      | none => "deadline"
    dueDate := strField event "dueDate"
    dueTime :=
      match strField event "dueTime" with
      | some s => if s = "" then none else some s
      | none => none
    confidenceScore :=
      match numField event "confidenceScore" with
      | some q => if q = 0 then mkRat 1 2 else q
      | none => mkRat 1 2
    sourceText :=
      match strField event "sourceText" with
      | some s => s
      | none => "" }

/-- The outcome of the one effectful step of `callGeminiAPI` (the `fetch` of
the Gemini endpoint and the decoding of its body), supplied as environment:
the call can throw, return a non-2xx status, return a body without the
`candidates[0].content` path, or deliver the model's response text. -/
inductive FetchOutcome where
  | fetchThrow (msg : String)
  | httpError (status : Nat) (errorText : String)
  | badShape
  | modelText (responseText : String)
deriving DecidableEq, Repr

/-- The ambient configuration and network outcome seen by one
`callGeminiAPI` run (`NEXT_PUBLIC_GEMINI_API_KEY` may be unset). -/
structure GeminiEnv where
  apiKey : Option String
  outcome : FetchOutcome
deriving DecidableEq, Repr

/-- The call `callGeminiAPI(text)`: `.error` models an exception reaching the caller
(the source's `catch` block logs and rethrows, so every internal failure
propagates).  In order: missing API key; `fetch` rejection; `!response.ok`;
missing `candidates[0].content`; no bracket-delimited substring in the
response text; `JSON.parse` failure; a parsed value that is not an array
(`Array.isArray`); and a `null` element, whose property access in the `map`
callback throws a `TypeError`.  Otherwise every element is coerced with
`geminiCoerceEvent`.  The input text only feeds the outbound prompt, whose
response is abstracted by the environment. -/
def callGeminiAPI (env : GeminiEnv) (text : String) : Except String (List ExtractedEvent) :=
  match env.apiKey with
  | none => .error "Gemini API key not configured"
  | some _ =>
    match env.outcome with
    | .fetchThrow msg => .error msg
    | .httpError status errorText =>
      .error ("Gemini API error: " ++ toString status ++ " - " ++ errorText)
    | .badShape => .error "Invalid response format from Gemini API"
    | .modelText responseText =>
      match bracketMatch responseText with
      | none => .error "No JSON array found in Gemini response"
      | some sub =>
        match jsonParse sub with
        | none => .error "JSON.parse: unexpected token"
        | some j =>
          match j with
          | .arr elems =>
            if elems.any Json.isNull then
              .error "TypeError: cannot read properties of null"
            else .ok (elems.map geminiCoerceEvent)
          | _ => .error "Gemini response is not an array"

/-- The entry point `extractEventsWithLLM(text)`: return the primary path's events, and on
any error fall back to `extractEventsWithRegex` on the same text.  The
returned value is a plain list: no exception escapes. -/
def extractEventsWithLLM (env : GeminiEnv) (text : String) : List ExtractedEvent :=
  match callGeminiAPI env text with
  | .ok events => events
  | .error _ => extractEventsWithRegex text

/-! ## The persistence mapping `convertToCalendarEvent`
(`src/components/Navbar.tsx`, lines 443-465) -/

/-- Models `x || null` on a nullable string: `undefined`, `null` and `""` all become
`null`. -/
def jsOrNull : Option String → Option String
  | none => none
  | some s => if s = "" then none else some s

/-- The row shape inserted into `calendar_events`
(`Omit<CalendarEvent, "id" | "created_at" | "updated_at">`). -/
structure CalendarEventInsert where
  syllabus_id : Option String
  class_id : String
  user_id : String
  title : String
  description : Option String
  event_type : String
  due_date : Option String
  due_time : Option String
  confidence_score : Rat
  source_text : String
  extraction_method : String
  is_exported : Bool
  exported_at : Option String
  ics_uid : Option String
deriving DecidableEq, Repr

/-- The adapter `convertToCalendarEvent(extractedEvent, classId, userId, syllabusId?)`:
the provenance tag is the fixed string `"llm"`, the export bookkeeping fields
start cleared, and `description`, `due_time` and `syllabus_id` go through
`|| null`. -/
def convertToCalendarEvent (extractedEvent : ExtractedEvent)
    (classId userId : String) (syllabusId : Option String) : CalendarEventInsert :=
  { syllabus_id := jsOrNull syllabusId
    class_id := classId
    user_id := userId
    title := extractedEvent.title
    description := jsOrNull extractedEvent.description
    event_type := extractedEvent.eventType
    due_date := extractedEvent.dueDate
    due_time := jsOrNull extractedEvent.dueTime
    confidence_score := extractedEvent.confidenceScore
    source_text := extractedEvent.sourceText
    extraction_method := "llm"
    is_exported := false
    exported_at := none
    ics_uid := none }

/-! ## The upload workflow `uploadSyllabi`
(`src/components/Navbar.tsx`, lines 142-239)

The events inserted by this workflow come from `extractCalendarEvents`
(`src/utils/calendarExtraction.ts`, referenced by the source tree but not
part of it); its result rows already carry the stored snake_case field names.
Its outcome, like every other collaborator outcome (auth, PDF text
extraction, storage, database), is supplied through an environment, and the
workflow records which stages ran. -/

/-- A row produced by `extractCalendarEvents` and consumed by the
`eventsToInsert` mapping. -/
structure WorkflowEvent where
  title : String
  description : Option String
  event_type : String
  due_date : String
  due_time : Option String
  confidence_score : Rat
  source_text : String
deriving DecidableEq, Repr

/-- The stages of `uploadSyllabi`, in the order the source runs them.  The
`eventExtraction` stage is the only one that can reach the language-model
service (inside `extractCalendarEvents`). -/
inductive UploadStage where
  | authCheck
  | pdfTextExtraction
  | eventExtraction
  | storageUpload
  | syllabusInsert
  | eventsInsert
deriving DecidableEq, Repr

/-- Collaborator outcomes for one `uploadSyllabi` run. -/
structure UploadEnv where
  user : Option String
  pdfText : Except String String
  extraction : Except String (List WorkflowEvent)
  storageOk : Bool
  syllabusId : Option String
  eventsInsertOk : Bool
deriving Repr

/-- The uploaded file as the workflow sees it. -/
structure UploadFile where
  type : String
  name : String
deriving DecidableEq, Repr

/-- The `eventsToInsert` mapping of `uploadSyllabi` (lines 205-220): event
fields are carried over unchanged and the workflow's own provenance tag
`"upload_workflow"` and cleared export bookkeeping are attached. -/
def uploadEventRow (syllabusId classId userId : String)
    (event : WorkflowEvent) : CalendarEventInsert :=
  { syllabus_id := some syllabusId
    class_id := classId
    user_id := userId
    title := event.title
    description := event.description
    event_type := event.event_type
    due_date := some event.due_date
    due_time := event.due_time
    confidence_score := event.confidence_score
    source_text := event.source_text
    extraction_method := "upload_workflow"
    is_exported := false
    exported_at := none
    ics_uid := none }

/-- The workflow `uploadSyllabi(file, classId)`: auth, then the PDF-only gate, then text
extraction, event extraction, storage upload, the syllabus insert, and the
events insert.  The result pairs the thrown-or-returned outcome (the returned
triple is the syllabus id, the extracted events and `savedEvents`) with the
list of stages that ran. -/
def uploadSyllabi (env : UploadEnv) (file : UploadFile) (classId : String) :
    Except String (String × List WorkflowEvent × Nat) × List UploadStage :=
  match env.user with
  | none => (.error "User not authenticated", [.authCheck])
  | some userId =>
    if file.type = "application/pdf" then
      match env.pdfText with
      | .error _ =>
        (.error "Failed to extract text from PDF", [.authCheck, .pdfTextExtraction])
      | .ok _contentText =>
        match env.extraction with
        | .error _ =>
          (.error "Failed to extract calendar events from syllabus",
           [.authCheck, .pdfTextExtraction, .eventExtraction])
        | .ok extractedEvents =>
          if !env.storageOk then
            (.error "Error uploading file to storage",
             [.authCheck, .pdfTextExtraction, .eventExtraction, .storageUpload])
          else
            match env.syllabusId with
            | none =>
              (.error "Error creating syllabus record",
               [.authCheck, .pdfTextExtraction, .eventExtraction, .storageUpload,
                .syllabusInsert])
            | some syllabusId =>
              let _rows := extractedEvents.map (uploadEventRow syllabusId classId userId)
              if extractedEvents.length > 0 then
                if !env.eventsInsertOk then
                  (.error "Failed to save calendar events to database",
                   [.authCheck, .pdfTextExtraction, .eventExtraction, .storageUpload,
                    .syllabusInsert, .eventsInsert])
                else
                  (.ok (syllabusId, extractedEvents, extractedEvents.length),
                   [.authCheck, .pdfTextExtraction, .eventExtraction, .storageUpload,
                    .syllabusInsert, .eventsInsert])
              else
                (.ok (syllabusId, extractedEvents, 0),
                 [.authCheck, .pdfTextExtraction, .eventExtraction, .storageUpload,
                  .syllabusInsert])
    else (.error "Only PDF files are supported for automatic processing", [.authCheck])

/-! ## Lemmas about validation -/

/-- The validator's if-chain computes exactly the specification predicate. -/
theorem validateEventCheck_eq_spec (e : ExtractedEvent) :
    validateEventCheck e = validEventSpec e := by
  obtain ⟨title, desc, etype, dueDate, dueTime, score, src⟩ := e
  simp only [validateEventCheck, validEventSpec]
  rcases dueDate with _ | d
  · simp [jsFalsyStr]
  · by_cases h3 : d = ""
    · subst h3
      simp [jsFalsyStr, jsDateValid]
    · by_cases h1 : title = ""
      · simp [h1, jsFalsyStr]
      · by_cases h2 : etype = ""
        · simp [h1, h2, h3, jsFalsyStr]
          intro _ hmem _
          exact absurd hmem (by decide)
        · by_cases h4 : jsDateValid d
          · by_cases h5 : score < 0
            · simp [h1, h2, h3, h4, h5, jsFalsyStr, jsDateValidOpt, not_le.mpr h5]
            · by_cases h6 : score > 1
              · simp [h1, h2, h3, h4, h6, jsFalsyStr, jsDateValidOpt, not_le.mpr h6]
              · simp [h1, h2, h3, h4, h5, h6, jsFalsyStr, jsDateValidOpt,
                      not_lt.mp h5, not_lt.mp h6]
          · simp [h1, h2, h3, h4, jsFalsyStr, jsDateValidOpt]

/-- An event whose `dueDate` is missing. -/
def evMissingDueDate : ExtractedEvent :=
  { title := "Essay", description := none, eventType := "assignment",
    dueDate := none, dueTime := none, confidenceScore := mkRat 9 10,
    sourceText := "Essay" }

/-- An event whose confidence score is `1.5`. -/
def evBadConfidence : ExtractedEvent :=
  { title := "Exam 1", description := none, eventType := "exam",
    dueDate := some "2024-10-01", dueTime := none, confidenceScore := mkRat 3 2,
    sourceText := "Exam 1" }

/-! ## Lemmas about deduplication -/

/-- Running `dedupGo` with an explicit `seen` set equals the specification filter on
the events whose key has not been seen. -/
theorem dedupGo_eq_firstOccurrence (es : List ExtractedEvent) : ∀ seen : List String,
    dedupGo seen es =
      firstOccurrenceFilter (es.filter (fun e => !seen.contains (dedupKey e))) := by
  induction es with
  | nil => intro seen; simp [dedupGo, firstOccurrenceFilter]
  | cons e es ih =>
    intro seen
    by_cases h : seen.contains (dedupKey e)
    · simp only [dedupGo, h, if_true, List.filter_cons, Bool.not_eq_true']
      rw [if_neg (by simp [h])]
      exact ih seen
    · have hb : seen.contains (dedupKey e) = false := by simpa using h
      simp only [dedupGo, hb, Bool.false_eq_true, if_false, List.filter_cons]
      rw [if_pos (by simp [hb])]
      rw [firstOccurrenceFilter, ih (dedupKey e :: seen), List.filter_filter]
      congr 2
      apply List.filter_congr
      intro x _
      by_cases hk : dedupKey x = dedupKey e
      · simp [hk, List.contains_cons]
      · simp [hk, List.contains_cons]

/-- Every element of `dedupGo seen es` has a key outside `seen`. -/
theorem dedupGo_key_not_seen (es : List ExtractedEvent) : ∀ seen b,
    b ∈ dedupGo seen es → seen.contains (dedupKey b) = false := by
  induction es with
  | nil => intro seen b hb; simp [dedupGo] at hb
  | cons e es ih =>
    intro seen b hb
    by_cases h : seen.contains (dedupKey e)
    · simp only [dedupGo, h, if_true] at hb
      exact ih seen b hb
    · have hb' : seen.contains (dedupKey e) = false := by simpa using h
      simp only [dedupGo, hb', Bool.false_eq_true, if_false, List.mem_cons] at hb
      rcases hb with rfl | hb
      · exact hb'
      · have h2 := ih (dedupKey e :: seen) b hb
        simp only [List.contains_cons, Bool.or_eq_false_iff] at h2
        exact h2.2

/-- The output of `dedupGo` has pairwise-distinct keys. -/
theorem dedupGo_pairwise (es : List ExtractedEvent) : ∀ seen,
    (dedupGo seen es).Pairwise (fun a b => dedupKey a ≠ dedupKey b) := by
  induction es with
  | nil => intro seen; simp [dedupGo]
  | cons e es ih =>
    intro seen
    by_cases h : seen.contains (dedupKey e)
    · simpa only [dedupGo, h, if_true] using ih seen
    · have hb : seen.contains (dedupKey e) = false := by simpa using h
      simp only [dedupGo, hb, Bool.false_eq_true, if_false]
      refine List.Pairwise.cons ?_ (ih (dedupKey e :: seen))
      intro b hbmem heq
      have hc := dedupGo_key_not_seen es (dedupKey e :: seen) b hbmem
      simp [List.contains_cons, heq] at hc

/-- On a list with pairwise-distinct keys none of which is in `seen`,
`dedupGo` is the identity. -/
theorem dedupGo_id (es : List ExtractedEvent) : ∀ seen,
    es.Pairwise (fun a b => dedupKey a ≠ dedupKey b) →
    (∀ e ∈ es, seen.contains (dedupKey e) = false) →
    dedupGo seen es = es := by
  induction es with
  | nil => intro seen _ _; rfl
  | cons e es ih =>
    intro seen hp hs
    have he : seen.contains (dedupKey e) = false := hs e (by simp)
    simp only [dedupGo, he, Bool.false_eq_true, if_false]
    congr 1
    refine ih (dedupKey e :: seen) (List.Pairwise.of_cons hp) ?_
    intro x hx
    have hne : dedupKey e ≠ dedupKey x := (List.pairwise_cons.mp hp).1 x hx
    have hxs : seen.contains (dedupKey x) = false := hs x (by simp [hx])
    have hne2 : dedupKey x ≠ dedupKey e := Ne.symm hne
    rw [List.contains_cons, Bool.or_eq_false_iff]
    exact ⟨beq_eq_false_iff_ne.mpr hne2, hxs⟩

/-! ## Claim theorems about validation and deduplication -/

/-- C2: `validateExtractedEvents` is the stable filter keeping exactly the
events with a non-empty title, a present due date that parses as a valid
calendar date, an event type in {assignment, exam, quiz, project, deadline}
and a confidence score inside `[0,1]`; survivors are unmodified and keep
their input order (the output is a sublist of the input), and in particular
an event with no `dueDate` and an event with `confidenceScore = 1.5` are
rejected. -/
theorem validateExtractedEvents_is_spec_filter (events : List ExtractedEvent) :
    validateExtractedEvents events = events.filter validEventSpec ∧
    List.Sublist (validateExtractedEvents events) events ∧
    validateExtractedEvents [evMissingDueDate] = [] ∧
    validateExtractedEvents [evBadConfidence] = [] := by
  refine ⟨?_, ?_, ?_, ?_⟩
  · exact List.filter_congr (fun e _ => validateEventCheck_eq_spec e)
  · exact List.filter_sublist _
  · decide
  · decide

/-- C3: `deduplicateEvents` keeps exactly the first occurrence (in input
order) of each key `lowercase(title) + "-" + dueDate` and drops every later
event with an identical key; consequently no two output elements share the
same (lowercased title, dueDate) pair. -/
theorem deduplicateEvents_first_occurrence (events : List ExtractedEvent) :
    deduplicateEvents events = firstOccurrenceFilter events ∧
    (deduplicateEvents events).Pairwise
      (fun a b => ¬(jsToLower a.title = jsToLower b.title ∧ a.dueDate = b.dueDate)) := by
  constructor
  · have h := dedupGo_eq_firstOccurrence events []
    simpa [deduplicateEvents, List.filter_true] using h
  · refine (dedupGo_pairwise events []).imp ?_
    intro a b hab hpair
    exact hab (by rw [dedupKey, dedupKey, hpair.1, hpair.2])

/-- C7: deduplication is idempotent. -/
theorem deduplicateEvents_idempotent (events : List ExtractedEvent) :
    deduplicateEvents (deduplicateEvents events) = deduplicateEvents events := by
  show dedupGo [] (dedupGo [] events) = dedupGo [] events
  refine dedupGo_id _ [] (dedupGo_pairwise events []) ?_
  intro e _
  rfl

/-- An event with title `"Exam"` due `"2024-10-01"`. -/
def evExamPlain : ExtractedEvent :=
  { title := "Exam", description := none, eventType := "exam",
    dueDate := some "2024-10-01", dueTime := none, confidenceScore := mkRat 9 10,
    sourceText := "a" }

/-- An event with title `"Exam-2024"` due `"10-01"`: a different
(lowercased title, dueDate) pair with the same concatenated key. -/
def evExamHyphen : ExtractedEvent :=
  { title := "Exam-2024", description := none, eventType := "exam",
    dueDate := some "10-01", dueTime := none, confidenceScore := mkRat 8 10,
    sourceText := "b" }

/-- C10: the concatenated deduplication key conflates distinct
(lowercased title, dueDate) pairs: `deduplicateEvents` drops the second of
two events whose pairs differ, because `"exam" + "-" + "2024-10-01"` and
`"exam-2024" + "-" + "10-01"` are the same string. -/
theorem deduplicateEvents_conflates_distinct_pairs :
    deduplicateEvents [evExamPlain, evExamHyphen] = [evExamPlain] ∧
    ¬(jsToLower evExamPlain.title = jsToLower evExamHyphen.title ∧
      evExamPlain.dueDate = evExamHyphen.dueDate) := by
  constructor
  · decide
  · decide

/-! ## Claim theorems about the extraction entry point -/

/-- C1: whenever the primary Gemini path fails — the API key is missing, the
fetch throws, the HTTP status is not ok, the response shape is invalid, the
response text contains no JSON-array substring, the substring does not parse,
or the parsed value is not an array — `callGeminiAPI` errors, and on any
error `extractEventsWithLLM` returns exactly the regex fallback run on the
same text; in every case its result is a plain list (either the fallback's
or the primary path's), so extraction never raises past its caller. -/
theorem extractEventsWithLLM_fallback (env : GeminiEnv) (text : String) :
    (∀ msg, callGeminiAPI env text = .error msg →
        extractEventsWithLLM env text = extractEventsWithRegex text) ∧
    (env.apiKey = none → ∃ msg, callGeminiAPI env text = .error msg) ∧
    (∀ m, env.outcome = .fetchThrow m → ∃ msg, callGeminiAPI env text = .error msg) ∧
    (∀ st et, env.outcome = .httpError st et →
        ∃ msg, callGeminiAPI env text = .error msg) ∧
    (env.outcome = .badShape → ∃ msg, callGeminiAPI env text = .error msg) ∧
    (∀ rt, env.outcome = .modelText rt → bracketMatch rt = none →
        ∃ msg, callGeminiAPI env text = .error msg) ∧
    (∀ rt sub, env.outcome = .modelText rt → bracketMatch rt = some sub →
        jsonParse sub = none → ∃ msg, callGeminiAPI env text = .error msg) ∧
    (∀ rt sub j, env.outcome = .modelText rt → bracketMatch rt = some sub →
        jsonParse sub = some j → j.isArr = false →
        ∃ msg, callGeminiAPI env text = .error msg) ∧
    ((∃ msg, callGeminiAPI env text = .error msg ∧
        extractEventsWithLLM env text = extractEventsWithRegex text) ∨
      (∃ evs, callGeminiAPI env text = .ok evs ∧ extractEventsWithLLM env text = evs)) := by
  obtain ⟨key, outcome⟩ := env
  refine ⟨?_, ?_, ?_, ?_, ?_, ?_, ?_, ?_, ?_⟩
  · intro msg h
    simp [extractEventsWithLLM, h]
  · intro hk
    subst hk
    exact ⟨_, rfl⟩
  · intro m ho
    rcases key with _ | k
    · exact ⟨_, rfl⟩
    · subst ho; exact ⟨m, rfl⟩
  · intro st et ho
    rcases key with _ | k
    · exact ⟨_, rfl⟩
    · subst ho; exact ⟨_, rfl⟩
  · intro ho
    rcases key with _ | k
    · exact ⟨_, rfl⟩
    · subst ho; exact ⟨_, rfl⟩
  · intro rt ho hb
    rcases key with _ | k
    · exact ⟨_, rfl⟩
    · subst ho
      exact ⟨"No JSON array found in Gemini response", by simp [callGeminiAPI, hb]⟩
  · intro rt sub ho hb hp
    rcases key with _ | k
    · exact ⟨_, rfl⟩
    · subst ho
      exact ⟨"JSON.parse: unexpected token", by simp [callGeminiAPI, hb, hp]⟩
  · intro rt sub j ho hb hp hj
    rcases key with _ | k
    · exact ⟨_, rfl⟩
    · subst ho
      rcases j with _ | b | q | s | elems | fs <;> simp_all [callGeminiAPI, Json.isArr]
  · cases h : callGeminiAPI ⟨key, outcome⟩ text with
    | error msg => exact Or.inl ⟨msg, rfl, by simp [extractEventsWithLLM, h]⟩
    | ok evs => exact Or.inr ⟨evs, rfl, by simp [extractEventsWithLLM, h]⟩

/-- An environment with no API key configured. -/
def envNoKey : GeminiEnv := { apiKey := none, outcome := .modelText "[]" }

/-- Witness for C1: with the credential missing the call errors and the
entry point returns the regex fallback's result. -/
theorem extractEventsWithLLM_fallback_witness :
    callGeminiAPI envNoKey "Quiz" = .error "Gemini API key not configured" ∧
    extractEventsWithLLM envNoKey "Quiz" = extractEventsWithRegex "Quiz" := by
  refine ⟨rfl, ?_⟩
  exact (extractEventsWithLLM_fallback envNoKey "Quiz").1 _ rfl

/-- C4 (amended): the Gemini element coercion defaults a missing title,
description, event type, confidence score and source text; `dueDate` is
passed through unmodified; `dueTime` is passed through only when non-empty,
and is defaulted to `null` when missing or empty (the source computes
`event.dueTime || null`). -/
theorem geminiCoerceEvent_defaults (j : Json) :
    (strField j "title" = none → (geminiCoerceEvent j).title = "Unknown Event") ∧
    (strField j "description" = none → (geminiCoerceEvent j).description = none) ∧
    (strField j "eventType" = none → (geminiCoerceEvent j).eventType = "deadline") ∧
    (numField j "confidenceScore" = none →
      (geminiCoerceEvent j).confidenceScore = mkRat 1 2) ∧
    (strField j "sourceText" = none → (geminiCoerceEvent j).sourceText = "") ∧
    (geminiCoerceEvent j).dueDate = strField j "dueDate" ∧
    (∀ s, strField j "dueTime" = some s → s ≠ "" →
      (geminiCoerceEvent j).dueTime = some s) ∧
    (strField j "dueTime" = none → (geminiCoerceEvent j).dueTime = none) ∧
    (strField j "dueTime" = some "" → (geminiCoerceEvent j).dueTime = none) := by
  refine ⟨?_, ?_, ?_, ?_, ?_, rfl, ?_, ?_, ?_⟩
  · intro h; simp [geminiCoerceEvent, h]
  · intro h; simp [geminiCoerceEvent, h]
  · intro h; simp [geminiCoerceEvent, h]
  · intro h; simp [geminiCoerceEvent, h]
  · intro h; simp [geminiCoerceEvent, h]
  · intro s h hs; simp [geminiCoerceEvent, h, hs]
  · intro h; simp [geminiCoerceEvent, h]
  · intro h; simp [geminiCoerceEvent, h]

/-- A raw Gemini element whose `dueTime` is present but empty. -/
def jsonDueTimeEmpty : Json :=
  Json.obj [("title", Json.str "HW 1"), ("dueDate", Json.str "2024-09-15"),
            ("dueTime", Json.str "")]

/-- C4 counterexample: `dueTime` is not passed through unmodified — an
element carrying `dueTime: ""` is coerced to a `null` due time. -/
theorem geminiCoerceEvent_dueTime_not_passthrough :
    strField jsonDueTimeEmpty "dueTime" = some "" ∧
    (geminiCoerceEvent jsonDueTimeEmpty).dueTime ≠ strField jsonDueTimeEmpty "dueTime" := by
  exact ⟨rfl, by decide⟩

/-- Witness for C4: on an element with no fields at all every default fires
and `dueDate` is the passed-through missing value. -/
theorem geminiCoerceEvent_defaults_witness :
    strField (Json.obj []) "title" = none ∧
    (geminiCoerceEvent (Json.obj [])).title = "Unknown Event" ∧
    (geminiCoerceEvent (Json.obj [])).dueDate = strField (Json.obj []) "dueDate" := by
  refine ⟨rfl, ?_, ?_⟩
  · exact (geminiCoerceEvent_defaults (Json.obj [])).1 rfl
  · exact (geminiCoerceEvent_defaults (Json.obj [])).2.2.2.2.2.1

/-- An environment in which the Gemini service is unavailable (the fetch
rejects). -/
def envServiceDown : GeminiEnv :=
  { apiKey := some "key", outcome := .fetchThrow "service unavailable" }

/-- C5: on the input text `"Assignment due: September 15, 2024"` with the
language-model service unavailable, the fallback yields exactly one candidate
event, with `eventType = "assignment"`, `dueDate = "2024-09-15"` and
`confidenceScore = 0.7`. -/
theorem extractEventsWithLLM_fallback_example :
    extractEventsWithLLM envServiceDown "Assignment due: September 15, 2024" =
      [{ title := "due", description := some "Extracted from syllabus text",
         eventType := "assignment", dueDate := some "2024-09-15", dueTime := none,
         confidenceScore := mkRat 7 10,
         sourceText := "Assignment due: September 15, 2024" }] ∧
    (extractEventsWithLLM envServiceDown "Assignment due: September 15, 2024").length = 1 := by
  have h : extractEventsWithLLM envServiceDown "Assignment due: September 15, 2024" =
      [{ title := "due", description := some "Extracted from syllabus text",
         eventType := "assignment", dueDate := some "2024-09-15", dueTime := none,
         confidenceScore := mkRat 7 10,
         sourceText := "Assignment due: September 15, 2024" }] := by decide
  exact ⟨h, by rw [h]; rfl⟩

/-! ## Claim theorems about the persistence mapping and the upload gate -/

/-- The default `x || null` is the identity on values that are not the empty string. -/
theorem jsOrNull_of_ne_empty (o : Option String) (h : o ≠ some "") : jsOrNull o = o := by
  rcases o with _ | s
  · rfl
  · have hs : s ≠ "" := fun he => h (by rw [he])
    simp [jsOrNull, hs]

/-- C6 (amended): `convertToCalendarEvent` attaches its fixed provenance tag
`"llm"` (and the upload workflow's inline mapping attaches its own fixed tag
`"upload_workflow"`), with `is_exported = false`, `exported_at = null` and
`ics_uid = null`; title, event type, due date, confidence and source text are
carried over unchanged, while `description` and `due_time` are carried over
except that missing or empty values are normalised to `null` by `|| null`. -/
theorem convertToCalendarEvent_fields (e : ExtractedEvent) (classId userId : String)
    (syllabusId : Option String) (sid cid uid : String) (w : WorkflowEvent) :
    (convertToCalendarEvent e classId userId syllabusId).extraction_method = "llm" ∧
    (convertToCalendarEvent e classId userId syllabusId).is_exported = false ∧
    (convertToCalendarEvent e classId userId syllabusId).exported_at = none ∧
    (convertToCalendarEvent e classId userId syllabusId).ics_uid = none ∧
    (convertToCalendarEvent e classId userId syllabusId).title = e.title ∧
    (convertToCalendarEvent e classId userId syllabusId).event_type = e.eventType ∧
    (convertToCalendarEvent e classId userId syllabusId).due_date = e.dueDate ∧
    (convertToCalendarEvent e classId userId syllabusId).confidence_score =
      e.confidenceScore ∧
    (convertToCalendarEvent e classId userId syllabusId).source_text = e.sourceText ∧
    (convertToCalendarEvent e classId userId syllabusId).class_id = classId ∧
    (convertToCalendarEvent e classId userId syllabusId).user_id = userId ∧
    (e.description ≠ some "" →
      (convertToCalendarEvent e classId userId syllabusId).description = e.description) ∧
    (e.dueTime ≠ some "" →
      (convertToCalendarEvent e classId userId syllabusId).due_time = e.dueTime) ∧
    (convertToCalendarEvent e classId userId syllabusId).description =
      jsOrNull e.description ∧
    (convertToCalendarEvent e classId userId syllabusId).due_time = jsOrNull e.dueTime ∧
    (uploadEventRow sid cid uid w).extraction_method = "upload_workflow" ∧
    (uploadEventRow sid cid uid w).is_exported = false ∧
    (uploadEventRow sid cid uid w).exported_at = none ∧
    (uploadEventRow sid cid uid w).ics_uid = none ∧
    (uploadEventRow sid cid uid w).title = w.title ∧
    (uploadEventRow sid cid uid w).description = w.description ∧
    (uploadEventRow sid cid uid w).due_date = some w.due_date ∧
    (uploadEventRow sid cid uid w).due_time = w.due_time ∧
    (uploadEventRow sid cid uid w).confidence_score = w.confidence_score ∧
    (uploadEventRow sid cid uid w).source_text = w.source_text := by
  refine ⟨rfl, rfl, rfl, rfl, rfl, rfl, rfl, rfl, rfl, rfl, rfl, ?_, ?_, rfl, rfl,
          rfl, rfl, rfl, rfl, rfl, rfl, rfl, rfl, rfl, rfl⟩
  · intro h
    exact jsOrNull_of_ne_empty e.description h
  · intro h
    exact jsOrNull_of_ne_empty e.dueTime h

/-- A validated event whose `description` is the empty string. -/
def evEmptyDescription : ExtractedEvent :=
  { title := "HW 1", description := some "", eventType := "assignment",
    dueDate := some "2024-09-15", dueTime := none, confidenceScore := mkRat 1 2,
    sourceText := "x" }

/-- C6 counterexample: a validated event (it survives
`validateExtractedEvents`) whose `description` is not carried over unchanged:
the adapter rewrites the empty description to `null`. -/
theorem convertToCalendarEvent_description_changed :
    validateExtractedEvents [evEmptyDescription] = [evEmptyDescription] ∧
    (convertToCalendarEvent evEmptyDescription "class1" "user1" none).description ≠
      evEmptyDescription.description := by
  exact ⟨by decide, by decide⟩

/-- A sample workflow event row. -/
def wSample : WorkflowEvent :=
  { title := "Quiz 1", description := none, event_type := "quiz",
    due_date := "2024-10-01", due_time := none, confidence_score := mkRat 1 2,
    source_text := "Quiz 1" }

/-- Witness for C6: concrete fields of the mapped rows. -/
theorem convertToCalendarEvent_fields_witness :
    (convertToCalendarEvent evExamPlain "c1" "u1" (some "syl1")).extraction_method = "llm" ∧
    (convertToCalendarEvent evExamPlain "c1" "u1" (some "syl1")).description =
      evExamPlain.description ∧
    (uploadEventRow "s1" "c1" "u1" wSample).extraction_method = "upload_workflow" := by
  obtain ⟨h1, _, _, _, _, _, _, _, _, _, _, hd, _, _, _, hu, _⟩ :=
    convertToCalendarEvent_fields evExamPlain "c1" "u1" (some "syl1") "s1" "c1" "u1" wSample
  exact ⟨h1, hd (by decide), hu⟩

/-- C8: for every upload whose file type is not `application/pdf`, the
workflow fails before the extraction stage runs — the stage trace never
contains `eventExtraction` (the only stage that can call the language-model
service), the outcome is an error, and for an authenticated user it is
exactly the unsupported-type error thrown before anything else ran. -/
theorem uploadSyllabi_rejects_nonPdf (env : UploadEnv) (file : UploadFile)
    (classId : String) (h : file.type ≠ "application/pdf") :
    UploadStage.eventExtraction ∉ (uploadSyllabi env file classId).2 ∧
    (∃ msg, (uploadSyllabi env file classId).1 = Except.error msg) ∧
    (∀ u, env.user = some u →
      uploadSyllabi env file classId =
        (Except.error "Only PDF files are supported for automatic processing",
         [UploadStage.authCheck])) := by
  obtain ⟨user, pdf, extr, st, syl, ev⟩ := env
  rcases user with _ | u
  · refine ⟨by simp [uploadSyllabi], ⟨_, rfl⟩, ?_⟩
    intro u hu
    exact absurd hu (by simp)
  · refine ⟨?_, ?_, ?_⟩
    · simp [uploadSyllabi, h]
    · exact ⟨"Only PDF files are supported for automatic processing",
        by simp [uploadSyllabi, h]⟩
    · intro u2 hu
      simp [uploadSyllabi, h]

/-- An authenticated environment in which every collaborator succeeds. -/
def envAuthed : UploadEnv :=
  { user := some "user1", pdfText := .ok "text", extraction := .ok [],
    storageOk := true, syllabusId := some "syl", eventsInsertOk := true }

/-- A non-PDF upload. -/
def filePng : UploadFile := { type := "image/png", name := "syllabus.png" }

/-- Witness for C8: a PNG upload by an authenticated user is rejected with
the unsupported-type error and the trace stops at the auth check. -/
theorem uploadSyllabi_rejects_nonPdf_witness :
    uploadSyllabi envAuthed filePng "class1" =
      (Except.error "Only PDF files are supported for automatic processing",
       [UploadStage.authCheck]) ∧
    UploadStage.eventExtraction ∉ (uploadSyllabi envAuthed filePng "class1").2 := by
  have h := uploadSyllabi_rejects_nonPdf envAuthed filePng "class1" (by decide)
  exact ⟨h.2.2 "user1" rfl, h.1⟩

/-! ## Lemmas about the regex engine: the third pattern never yields an event
(claim C9)

Pattern 3 declares only capture groups 1-4, so `match[5]` is always
undefined; `parseRegexMatch` then takes the `MONTH_MAP` branch (group 3 is an
abbreviated month name), computes `parseInt(undefined) = NaN` for the year,
assembles a `"NaN-..."` date string, and discards the match because the date
is invalid. -/

/-- The capture-group indices declared by a regex. -/
def reGroupIdxs : RE → List Nat
  | .lit _ => []
  | .plusG _ => []
  | .plusL _ => []
  | .repG _ _ _ => []
  | .optG _ => []
  | .cat a b => reGroupIdxs a ++ reGroupIdxs b
  | .alt a b => reGroupIdxs a ++ reGroupIdxs b
  | .grp i r => i :: reGroupIdxs r

/-- Every capture recorded by a match of `r` belongs to a group declared in
`r`. -/
theorem caps_keys_mem (r : RE) : ∀ cs p, p ∈ reMatches r cs →
    ∀ q ∈ p.2, q.1 ∈ reGroupIdxs r := by
  induction r with
  | lit s =>
    intro cs p hp q hq
    simp only [reMatches] at hp
    split at hp
    · simp only [List.mem_singleton] at hp
      subst hp; simp at hq
    · simp at hp
  | plusG c =>
    intro cs p hp q hq
    simp only [reMatches, List.mem_map] at hp
    obtain ⟨k, _, rfl⟩ := hp
    simp at hq
  | plusL c =>
    intro cs p hp q hq
    simp only [reMatches, List.mem_map] at hp
    obtain ⟨k, _, rfl⟩ := hp
    simp at hq
  | repG c lo hi =>
    intro cs p hp q hq
    simp only [reMatches] at hp
    split at hp
    · simp at hp
    · simp only [List.mem_map] at hp
      obtain ⟨k, _, rfl⟩ := hp
      simp at hq
  | optG c =>
    intro cs p hp q hq
    simp only [reMatches] at hp
    split at hp
    · simp only [List.mem_cons, List.not_mem_nil, or_false] at hp
      rcases hp with rfl | rfl <;> simp at hq
    · simp only [List.mem_singleton] at hp
      subst hp; simp at hq
  | cat a b iha ihb =>
    intro cs p hp q hq
    simp only [reMatches, List.mem_flatMap, List.mem_map] at hp
    obtain ⟨p1, hp1, p2, hp2, heq⟩ := hp
    subst heq
    simp only [reGroupIdxs, List.mem_append]
    rcases List.mem_append.mp hq with h | h
    · exact Or.inl (iha cs p1 hp1 q h)
    · exact Or.inr (ihb p1.1 p2 hp2 q h)
  | alt a b iha ihb =>
    intro cs p hp q hq
    simp only [reMatches, List.mem_append] at hp
    simp only [reGroupIdxs, List.mem_append]
    rcases hp with h | h
    · exact Or.inl (iha cs p h q hq)
    · exact Or.inr (ihb cs p h q hq)
  | grp i r ihr =>
    intro cs p hp q hq
    simp only [reMatches, List.mem_map] at hp
    obtain ⟨p1, hp1, heq⟩ := hp
    subst heq
    simp only [reGroupIdxs, List.mem_cons]
    rcases List.mem_cons.mp hq with rfl | h
    · exact Or.inl rfl
    · exact Or.inr (ihr cs p1 hp1 q h)

/-- A regex declaring no groups records no captures. -/
theorem caps_nil_of_no_groups {r : RE} (h : reGroupIdxs r = []) :
    ∀ cs p, p ∈ reMatches r cs → p.2 = [] := by
  intro cs p hp
  refine List.eq_nil_iff_forall_not_mem.mpr ?_
  intro q hq
  have hmem := caps_keys_mem r cs p hp q hq
  rw [h] at hmem
  exact absurd hmem (List.not_mem_nil q.1)

/-- Decomposition of a concatenation match. -/
theorem mem_reMatches_cat {a b : RE} {cs : List Char} {p : List Char × Caps}
    (hp : p ∈ reMatches (.cat a b) cs) :
    ∃ p1 p2, p1 ∈ reMatches a cs ∧ p2 ∈ reMatches b p1.1 ∧
      p = (p2.1, p1.2 ++ p2.2) := by
  simp only [reMatches, List.mem_flatMap, List.mem_map] at hp
  obtain ⟨p1, hp1, p2, hp2, heq⟩ := hp
  exact ⟨p1, p2, hp1, hp2, heq.symm⟩

/-- Decomposition of an alternation match. -/
theorem mem_reMatches_alt {a b : RE} {cs : List Char} {p : List Char × Caps}
    (hp : p ∈ reMatches (.alt a b) cs) :
    p ∈ reMatches a cs ∨ p ∈ reMatches b cs := by
  simpa only [reMatches, List.mem_append] using hp

/-- Decomposition of a group match. -/
theorem mem_reMatches_grp {i : Nat} {r : RE} {cs : List Char} {p : List Char × Caps}
    (hp : p ∈ reMatches (.grp i r) cs) :
    ∃ p1, p1 ∈ reMatches r cs ∧
      p = (p1.1, (i, cs.take (cs.length - p1.1.length)) :: p1.2) := by
  simp only [reMatches, List.mem_map] at hp
  obtain ⟨p1, hp1, heq⟩ := hp
  exact ⟨p1, hp1, heq.symm⟩

/-- Decomposition of a literal match. -/
theorem mem_reMatches_lit {s cs : List Char} {p : List Char × Caps}
    (hp : p ∈ reMatches (.lit s) cs) :
    p = (cs.drop s.length, ([] : Caps)) ∧ (cs.take s.length).map Char.toLower = s := by
  simp only [reMatches] at hp
  split at hp
  · next heq =>
    simp only [List.mem_singleton] at hp
    exact ⟨hp, heq⟩
  · simp at hp

/-- A match of the abbreviated-month alternation consumes exactly one of the
twelve abbreviations (case-insensitively) and records no captures. -/
theorem mem_reMatches_monthAbbrRE {cs : List Char} {p : List Char × Caps}
    (hp : p ∈ reMatches monthAbbrRE cs) :
    ∃ l ∈ monthAbbrs, p = (cs.drop l.length, ([] : Caps)) ∧
      (cs.take l.length).map Char.toLower = l := by
  have h0 : p ∈ reMatches
      (RE.alt (.lit "jan".data) (RE.alt (.lit "feb".data) (RE.alt (.lit "mar".data)
        (RE.alt (.lit "apr".data) (RE.alt (.lit "may".data) (RE.alt (.lit "jun".data)
          (RE.alt (.lit "jul".data) (RE.alt (.lit "aug".data) (RE.alt (.lit "sep".data)
            (RE.alt (.lit "oct".data) (RE.alt (.lit "nov".data)
              (.lit "dec".data)))))))))))) cs := hp
  rcases mem_reMatches_alt h0 with h | h0
  · exact ⟨"jan".data, by simp [monthAbbrs], (mem_reMatches_lit h).1, (mem_reMatches_lit h).2⟩
  rcases mem_reMatches_alt h0 with h | h0
  · exact ⟨"feb".data, by simp [monthAbbrs], (mem_reMatches_lit h).1, (mem_reMatches_lit h).2⟩
  rcases mem_reMatches_alt h0 with h | h0
  · exact ⟨"mar".data, by simp [monthAbbrs], (mem_reMatches_lit h).1, (mem_reMatches_lit h).2⟩
  rcases mem_reMatches_alt h0 with h | h0
  · exact ⟨"apr".data, by simp [monthAbbrs], (mem_reMatches_lit h).1, (mem_reMatches_lit h).2⟩
  rcases mem_reMatches_alt h0 with h | h0
  · exact ⟨"may".data, by simp [monthAbbrs], (mem_reMatches_lit h).1, (mem_reMatches_lit h).2⟩
  rcases mem_reMatches_alt h0 with h | h0
  · exact ⟨"jun".data, by simp [monthAbbrs], (mem_reMatches_lit h).1, (mem_reMatches_lit h).2⟩
  rcases mem_reMatches_alt h0 with h | h0
  · exact ⟨"jul".data, by simp [monthAbbrs], (mem_reMatches_lit h).1, (mem_reMatches_lit h).2⟩
  rcases mem_reMatches_alt h0 with h | h0
  · exact ⟨"aug".data, by simp [monthAbbrs], (mem_reMatches_lit h).1, (mem_reMatches_lit h).2⟩
  rcases mem_reMatches_alt h0 with h | h0
  · exact ⟨"sep".data, by simp [monthAbbrs], (mem_reMatches_lit h).1, (mem_reMatches_lit h).2⟩
  rcases mem_reMatches_alt h0 with h | h0
  · exact ⟨"oct".data, by simp [monthAbbrs], (mem_reMatches_lit h).1, (mem_reMatches_lit h).2⟩
  rcases mem_reMatches_alt h0 with h | h0
  · exact ⟨"nov".data, by simp [monthAbbrs], (mem_reMatches_lit h).1, (mem_reMatches_lit h).2⟩
  · exact ⟨"dec".data, by simp [monthAbbrs], (mem_reMatches_lit h0).1, (mem_reMatches_lit h0).2⟩

/-- Every match of pattern 3 records exactly the captures of groups 1-4, and
its group 3 lowercases to one of the twelve month abbreviations. -/
theorem pattern3_caps {cs : List Char} {p : List Char × Caps}
    (hp : p ∈ reMatches pattern3 cs) :
    ∃ c1 c2 c3 c4, p.2 = [(1, c1), (2, c2), (3, c3), (4, c4)] ∧
      ∃ l ∈ monthAbbrs, c3.map Char.toLower = l := by
  obtain ⟨pA, pR1, hA, hR1, rfl⟩ := mem_reMatches_cat hp
  obtain ⟨pB, pR2, hB, hR2, rfl⟩ := mem_reMatches_cat hR1
  obtain ⟨pC, pR3, hC, hR3, rfl⟩ := mem_reMatches_cat hR2
  obtain ⟨pD, pR4, hD, hR4, rfl⟩ := mem_reMatches_cat hR3
  obtain ⟨pE, pR5, hE, hR5, rfl⟩ := mem_reMatches_cat hR4
  obtain ⟨pF, pG, hF, hG, rfl⟩ := mem_reMatches_cat hR5
  obtain ⟨pA1, hA1, rfl⟩ := mem_reMatches_grp hA
  obtain ⟨pC1, hC1, rfl⟩ := mem_reMatches_grp hC
  obtain ⟨pE1, hE1, rfl⟩ := mem_reMatches_grp hE
  obtain ⟨pG1, hG1, rfl⟩ := mem_reMatches_grp hG
  have hA1nil : pA1.2 = [] := caps_nil_of_no_groups (by rfl) _ _ hA1
  have hBnil : pB.2 = [] := caps_nil_of_no_groups (by rfl) _ _ hB
  have hC1nil : pC1.2 = [] := caps_nil_of_no_groups (by rfl) _ _ hC1
  have hDnil : pD.2 = [] := caps_nil_of_no_groups (by rfl) _ _ hD
  have hFnil : pF.2 = [] := caps_nil_of_no_groups (by rfl) _ _ hF
  have hG1nil : pG1.2 = [] := caps_nil_of_no_groups (by rfl) _ _ hG1
  obtain ⟨l, hl, heq, hlow⟩ := mem_reMatches_monthAbbrRE hE1
  have hE1nil : pE1.2 = [] := by rw [heq]
  have hlen := congrArg List.length hlow
  simp only [List.length_map, List.length_take] at hlen
  have hle : l.length ≤ (pD.1).length := min_eq_left_iff.mp hlen
  have hc3 : (pD.1).take ((pD.1).length - (pE1.1).length) = (pD.1).take l.length := by
    rw [heq]
    simp only [List.length_drop]
    rw [Nat.sub_sub_self hle]
  refine ⟨cs.take (cs.length - pA1.1.length), (pB.1).take ((pB.1).length - (pC1.1).length),
          (pD.1).take ((pD.1).length - (pE1.1).length),
          (pF.1).take ((pF.1).length - (pG1.1).length), ?_, l, hl, ?_⟩
  · simp only [hA1nil, hBnil, hC1nil, hDnil, hE1nil, hFnil, hG1nil]
    simp
  · rw [hc3]
    exact hlow

/-- A date string whose first character is not a digit is invalid. -/
theorem jsDateValid_head_not_digit {s : String} {c : Char} {cs : List Char}
    (hdata : s.data = c :: cs) (h : c.isDigit = false) : jsDateValid s = false := by
  unfold jsDateValid
  rw [hdata]
  rcases cs with _ | ⟨a1, cs⟩
  · rfl
  rcases cs with _ | ⟨a2, cs⟩
  · rfl
  rcases cs with _ | ⟨a3, cs⟩
  · rfl
  rcases cs with _ | ⟨a4, cs⟩
  · rfl
  rcases cs with _ | ⟨a5, cs⟩
  · rfl
  rcases cs with _ | ⟨a6, cs⟩
  · rfl
  rcases cs with _ | ⟨a7, cs⟩
  · rfl
  rcases cs with _ | ⟨a8, cs⟩
  · rfl
  rcases cs with _ | ⟨a9, cs⟩
  · rfl
  rcases cs with _ | ⟨a10, cs⟩
  · simp [h]
  · rfl

/-- The date string assembled with a `NaN` year starts with `'N'`. -/
theorem mkDueDate_nan_data (month day : Option Nat) :
    ∃ rest, (mkDueDate none month day).data = 'N' :: rest := by
  refine ⟨'a' :: 'N' :: ("-" ++ padStart2 (numToStr month) ++ "-" ++
    padStart2 (numToStr day)).data, ?_⟩
  show (numToStr none ++ "-" ++ padStart2 (numToStr month) ++ "-" ++
    padStart2 (numToStr day)).data = _
  rw [show numToStr none = "NaN" from rfl]
  simp [String.data_append]

/-- A date assembled from a `NaN` year fails the validity check. -/
theorem jsDateValid_mkDueDate_nan (month day : Option Nat) :
    jsDateValid (mkDueDate none month day) = false := by
  obtain ⟨rest, hdata⟩ := mkDueDate_nan_data month day
  exact jsDateValid_head_not_digit hdata (by decide)

/-- The parser `parseRegexMatch` discards any match whose captures are exactly groups
1-4 with an abbreviated month name in group 3: the year group 5 is undefined,
`parseInt` yields `NaN`, and the assembled date is invalid. -/
theorem parseRegexMatch_pattern3_shape_none {m : RMatch}
    (h : ∃ c1 c2 c3 c4, m.caps = [(1, c1), (2, c2), (3, c3), (4, c4)] ∧
      ∃ l ∈ monthAbbrs, c3.map Char.toLower = l) :
    parseRegexMatch m = none := by
  obtain ⟨c1, c2, c3, c4, hcaps, l, hl, hlow⟩ := h
  have h3 : m.group 3 = some c3 := by
    simp [RMatch.group, hcaps, List.find?]
  have h5 : m.group 5 = none := by
    simp [RMatch.group, hcaps, List.find?]
  have hlnil : l ≠ [] := by
    simp only [monthAbbrs, List.mem_cons, List.not_mem_nil, or_false] at hl
    rcases hl with rfl | rfl | rfl | rfl | rfl | rfl | rfl | rfl | rfl | rfl | rfl | rfl <;>
      decide
  have hne : c3 ≠ [] := by
    intro hc
    rw [hc] at hlow
    exact hlnil hlow.symm
  have hmon : ∃ mo, monthOfGroup3 m = some mo := by
    have hjl : jsToLower ⟨c3⟩ = ⟨l⟩ := by
      simp [jsToLower, hlow]
    simp only [monthOfGroup3, h3, hjl]
    simp only [monthAbbrs, List.mem_cons, List.not_mem_nil, or_false] at hl
    rcases hl with rfl | rfl | rfl | rfl | rfl | rfl | rfl | rfl | rfl | rfl | rfl | rfl <;>
      exact ⟨_, rfl⟩
  obtain ⟨mo, hmo⟩ := hmon
  have ht : jsTruthyCap (m.group 3) = true := by
    rw [h3]
    simpa [jsTruthyCap] using hne
  simp only [parseRegexMatch, ht, hmo, h5, Option.isSome_some, Bool.and_self,
    if_true, Option.map_none, Bool.true_and]
  simp [parseIntJS, jsDateValid_mkDueDate_nan]

/-- A match reported at the current position comes from `reMatches`. -/
theorem reFindHere_sound {r : RE} {cs : List Char} {m : RMatch}
    (h : reFindHere r cs = some m) :
    ∃ p ∈ reMatches r cs, m = ⟨cs.take (cs.length - p.1.length), p.2⟩ := by
  unfold reFindHere at h
  cases hh : (reMatches r cs).head? with
  | none => rw [hh] at h; simp at h
  | some p =>
    rw [hh] at h
    simp only [Option.map_some', Option.some.injEq] at h
    refine ⟨p, ?_, h.symm⟩
    cases hl : reMatches r cs with
    | nil => rw [hl] at hh; simp at hh
    | cons x xs =>
      rw [hl] at hh
      simp only [List.head?_cons, Option.some.injEq] at hh
      subst hh
      exact List.mem_cons_self x xs

/-- A match reported anywhere by the scan comes from `reMatches` at some
suffix of the input. -/
theorem reFind_sound {r : RE} : ∀ {cs : List Char} {i : Nat} {m : RMatch},
    reFind r cs = some (i, m) →
    ∃ sub p, p ∈ reMatches r sub ∧ m = ⟨sub.take (sub.length - p.1.length), p.2⟩ := by
  intro cs
  induction cs with
  | nil =>
    intro i m h
    simp only [reFind] at h
    cases hh : reFindHere r [] with
    | none => rw [hh] at h; simp at h
    | some m0 =>
      rw [hh] at h
      simp only [Option.map_some', Option.some.injEq, Prod.mk.injEq] at h
      obtain ⟨p, hp, hm⟩ := reFindHere_sound hh
      exact ⟨[], p, hp, h.2 ▸ hm⟩
  | cons c tl ih =>
    intro i m h
    simp only [reFind] at h
    cases hh : reFindHere r (c :: tl) with
    | some m0 =>
      rw [hh] at h
      simp only [Option.some.injEq, Prod.mk.injEq] at h
      obtain ⟨p, hp, hm⟩ := reFindHere_sound hh
      exact ⟨c :: tl, p, hp, h.2 ▸ hm⟩
    | none =>
      rw [hh] at h
      cases hf : reFind r tl with
      | none => rw [hf] at h; simp at h
      | some q =>
        obtain ⟨j, m1⟩ := q
        rw [hf] at h
        simp only [Option.map_some', Option.some.injEq, Prod.mk.injEq] at h
        obtain ⟨sub, p, hp, hm⟩ := ih hf
        exact ⟨sub, p, hp, h.2 ▸ hm⟩

/-- Every match reported by the `matchAll` loop comes from a successful
scan. -/
theorem mem_reMatchAllGo {r : RE} : ∀ fuel cs m, m ∈ reMatchAllGo r fuel cs →
    ∃ cs2 i, reFind r cs2 = some (i, m) := by
  intro fuel
  induction fuel with
  | zero => intro cs m h; simp [reMatchAllGo] at h
  | succ fuel ih =>
    intro cs m h
    simp only [reMatchAllGo] at h
    cases hf : reFind r cs with
    | none => rw [hf] at h; simp at h
    | some im =>
      obtain ⟨i, m0⟩ := im
      rw [hf] at h
      rcases List.mem_cons.mp h with rfl | h2
      · exact ⟨cs, i, hf⟩
      · exact ih _ m h2

/-- Every match of pattern 3, anywhere in any text, is discarded by
`parseRegexMatch`. -/
theorem pattern3_match_discarded {cs : List Char} {m : RMatch}
    (h : m ∈ reMatchAll pattern3 cs) : parseRegexMatch m = none := by
  obtain ⟨cs2, i, hf⟩ := mem_reMatchAllGo _ _ _ h
  obtain ⟨sub, p, hp, hm⟩ := reFind_sound hf
  apply parseRegexMatch_pattern3_shape_none
  obtain ⟨c1, c2, c3, c4, hcaps, hl⟩ := pattern3_caps hp
  exact ⟨c1, c2, c3, c4, by rw [hm]; exact hcaps, hl⟩

/-- C9: the regex fallback produces no event from the third date pattern —
every match of that pattern is discarded, so `extractEventsWithRegex` is
exactly the events of the first two patterns. -/
theorem extractEventsWithRegex_pattern3_empty (text : String) :
    (reMatchAll pattern3 text.data).filterMap parseRegexMatch = [] ∧
    extractEventsWithRegex text =
      (reMatchAll pattern1 text.data).filterMap parseRegexMatch ++
      (reMatchAll pattern2 text.data).filterMap parseRegexMatch := by
  have h3 : (reMatchAll pattern3 text.data).filterMap parseRegexMatch = [] := by
    rw [List.filterMap_eq_nil_iff]
    intro m hm
    exact pattern3_match_discarded hm
  refine ⟨h3, ?_⟩
  simp [extractEventsWithRegex, DATE_PATTERNS, h3]
